import Mathlib

/-!
Verification of the ArcBot_LLM conversational-turn engine against its
natural-language specification.

The Python sources are shallowly embedded: message dictionaries become
structures, the configured token limit becomes an explicit parameter, and
stateful registries become explicit state values threaded through the
functions.  Every definition follows the corresponding source function;
definitions whose doc comment starts with "Modelled from the spec:" follow
the specification text instead and exist only for comparison.
-/

namespace ArcBot

/-! ## Token estimator (`common/text.py`, `estimate_tokens`)

Python: `estimated_tokens = (len(text) * 2) // 3 + 1` for strings
(non-strings give 0; contents are always strings in this embedding). -/

def estimate_tokens (s : String) : Nat :=
  s.length * 2 / 3 + 1

/-! ## Conversation messages

A history entry is a Python dict.  `build_context_within_limit` reads
`message.get("role", DEFAULT_ROLE_KEY)` and `message.get("content", "")`;
the callers in `llm.py` additionally store a `role_marker` key holding the
persona key of the turn.  A missing `content` is identified with `""`. -/

structure Msg where
  role : Option String
  content : String
  roleMarker : Option String := none
deriving DecidableEq, Repr

def DEFAULT_ROLE_KEY : String := "__global__"

/-- `message.get("role", DEFAULT_ROLE_KEY)` of `context_utils.py` line 42. -/
def roleOf (m : Msg) : String :=
  m.role.getD DEFAULT_ROLE_KEY

/-! ## Context budgeter (`context_utils.py`, `build_context_within_limit`)

The configured `max_context_tokens` is the explicit parameter `B`.
The Python loop inserts each accepted message at the slot right after the
system prompt while walking the dialog newest-to-oldest; accumulating the
accepted messages with `cons` over the reversed dialog produces the same
chronologically ordered list, which is appended after the kept system
turn at the end. -/

/-- Lines 19-26: detach the system prompt when the first entry has
`role == "system"`. -/
def splitSystem : List Msg → Option Msg × List Msg
  | [] => (none, [])
  | m :: rest =>
    if m.role = some "system" then (some m, rest) else (none, m :: rest)

/-- Lines 29-36: the system prompt is kept only when its estimate fits the
limit; an oversized system prompt is dropped (`system_prompt = None`). -/
def keepSystem (sysOpt : Option Msg) (B : Nat) : Option Msg :=
  match sysOpt with
  | some s => if estimate_tokens s.content ≤ B then some s else none
  | none => none

/-- The `current_tokens` contribution of the kept system prompt. -/
def sysTokens : Option Msg → Nat
  | some s => estimate_tokens s.content
  | none => 0

/-- Lines 39-66: walk the reversed dialog history.  `hasSys` records
whether the kept system prompt occupies the context, so that
`context` (Python) is nonempty iff `hasSys ∨ acc ≠ []`.  Returns the
accepted dialog turns in chronological order plus the final
`current_tokens`. -/
def contextLoop (active : String) (B : Nat) (hasSys : Bool) :
    List Msg → Nat → List Msg → List Msg × Nat
  | [], cur, acc => (acc, cur)
  | m :: rest, cur, acc =>
    if roleOf m = active then
      if B < cur + estimate_tokens m.content ∧ (hasSys = true ∨ acc ≠ []) then
        (acc, cur)
      else
        contextLoop active B hasSys rest (cur + estimate_tokens m.content)
          (m :: acc)
    else contextLoop active B hasSys rest cur acc

/-- Lines 72-84: the fallback scan looks for the first (most recent)
message whose role matches, and stops at it whether or not it is added. -/
def findNewestMatching (active : String) : List Msg → Option Msg
  | [] => none
  | m :: rest =>
    if roleOf m = active then some m else findNewestMatching active rest

/-- Line 79: the found message is added only when it still fits. -/
def fallbackPick (B cur : Nat) : Option Msg → List Msg
  | some m => if cur + estimate_tokens m.content ≤ B then [m] else []
  | none => []

/-- Lines 68-84: the fallback only fires when no dialog turn was accepted
(`context` is empty or is exactly the kept system prompt) and the dialog
history is nonempty. -/
def contextFallback (active : String) (B cur : Nat) (dialog acc : List Msg) :
    List Msg :=
  if acc = [] ∧ dialog ≠ [] then
    fallbackPick B cur (findNewestMatching active dialog.reverse)
  else acc

/-- `build_context_within_limit`, split into the kept system prompt and
the dialog portion of the returned context. -/
def build_context_parts (full : List Msg) (active : String) (B : Nat) :
    Option Msg × List Msg :=
  let p := splitSystem full
  let sk := keepSystem p.1 B
  let r := contextLoop active B sk.isSome p.2.reverse (sysTokens sk) []
  (sk, contextFallback active B r.2 p.2 r.1)

/-- `context_utils.build_context_within_limit`: the returned context. -/
def build_context_within_limit (full : List Msg) (active : String) (B : Nat) :
    List Msg :=
  let p := build_context_parts full active B
  p.1.toList ++ p.2

/-- Summed token estimate of a returned context. -/
def contextEstimate (l : List Msg) : Nat :=
  (l.map (fun m => estimate_tokens m.content)).sum

/-- Modelled from the spec: section 3 states that a turn carries a
`persona_marker` ("absent means default/global persona") used to filter
history per persona.  This variant is `build_context_within_limit` with
the persona filter reading the `role_marker` key instead of the `role`
key; it exists only to compare the source behaviour with the spec. -/
def contextLoopMarker (active : String) (B : Nat) (hasSys : Bool) :
    List Msg → Nat → List Msg → List Msg × Nat
  | [], cur, acc => (acc, cur)
  | m :: rest, cur, acc =>
    if m.roleMarker.getD DEFAULT_ROLE_KEY = active then
      if B < cur + estimate_tokens m.content ∧ (hasSys = true ∨ acc ≠ []) then
        (acc, cur)
      else
        contextLoopMarker active B hasSys rest (cur + estimate_tokens m.content)
          (m :: acc)
    else contextLoopMarker active B hasSys rest cur acc

/-- Modelled from the spec: companion of `contextLoopMarker` for the
fallback scan. -/
def findNewestMatchingMarker (active : String) : List Msg → Option Msg
  | [] => none
  | m :: rest =>
    if m.roleMarker.getD DEFAULT_ROLE_KEY = active then some m
    else findNewestMatchingMarker active rest

/-- Modelled from the spec: `build_context_within_limit` with the persona
filter on the `role_marker` key (spec section 3 `persona_marker`). -/
def build_context_marker (full : List Msg) (active : String) (B : Nat) :
    List Msg :=
  let p := splitSystem full
  let sk := keepSystem p.1 B
  let r := contextLoopMarker active B sk.isSome p.2.reverse (sysTokens sk) []
  let acc2 : List Msg :=
    if r.1 = [] ∧ p.2 ≠ [] then
      match findNewestMatchingMarker active p.2.reverse with
      | some m =>
        if r.2 + estimate_tokens m.content ≤ B then [m] else []
      | none => []
    else r.1
  sk.toList ++ acc2

/-! ### Concrete scenario messages (spec section 8, first scenario) -/

/-- System prompt with estimate 50 (74 characters). -/
def sysMsg50 : Msg := ⟨some "system", String.mk (List.replicate 74 'a'), none⟩

/-- First user turn with estimate 40 (59 characters). -/
def userMsg40a : Msg :=
  ⟨some "user", String.mk (List.replicate 59 'b'), some DEFAULT_ROLE_KEY⟩

/-- Assistant turn with estimate 40 (59 characters). -/
def asstMsg40 : Msg :=
  ⟨some "assistant", String.mk (List.replicate 59 'c'), some DEFAULT_ROLE_KEY⟩

/-- Newest user turn with estimate 40 (59 characters). -/
def userMsg40b : Msg :=
  ⟨some "user", String.mk (List.replicate 59 'd'), some DEFAULT_ROLE_KEY⟩

/-- A user turn with estimate 60 (89 characters), larger than the budget
remaining after a 50-token system prompt under `B = 100`. -/
def userMsg60 : Msg :=
  ⟨some "user", String.mk (List.replicate 89 'e'), some "user"⟩

example : estimate_tokens sysMsg50.content = 50 := by decide
example : estimate_tokens userMsg40a.content = 40 := by decide
example : estimate_tokens userMsg60.content = 60 := by decide

/-! ### Properties of the budgeter loop -/

theorem contextEstimate_nil : contextEstimate [] = 0 := rfl

theorem contextEstimate_cons (m : Msg) (l : List Msg) :
    contextEstimate (m :: l) = estimate_tokens m.content + contextEstimate l := by
  simp [contextEstimate]

theorem contextEstimate_append (a b : List Msg) :
    contextEstimate (a ++ b) = contextEstimate a + contextEstimate b := by
  simp [contextEstimate]

/-- Once the context is nonempty, every further acceptance is guarded by
the limit, so `current_tokens` never exceeds `B`. -/
theorem contextLoop_le (active : String) (B : Nat) (hasSys : Bool) :
    ∀ (l : List Msg) (cur : Nat) (acc : List Msg),
      (hasSys = true ∨ acc ≠ []) → cur ≤ B →
      (contextLoop active B hasSys l cur acc).2 ≤ B := by
  intro l
  induction l with
  | nil => intro cur acc _ h; simpa [contextLoop] using h
  | cons m rest ih =>
    intro cur acc hne h
    by_cases hr : roleOf m = active
    · rw [contextLoop, if_pos hr]
      by_cases hc :
          B < cur + estimate_tokens m.content ∧ (hasSys = true ∨ acc ≠ [])
      · rw [if_pos hc]; exact h
      · rw [if_neg hc]
        have hle : cur + estimate_tokens m.content ≤ B := by
          by_contra hgt
          exact hc ⟨Nat.lt_of_not_le hgt, hne⟩
        exact ih _ (m :: acc) (Or.inr (by simp)) hle
    · rw [contextLoop, if_neg hr]
      exact ih cur acc hne h

/-- Once `current_tokens` exceeds `B` with a nonempty accepted list, the
loop accepts nothing further. -/
theorem contextLoop_stuck (active : String) (B : Nat) (hasSys : Bool) :
    ∀ (l : List Msg) (cur : Nat) (acc : List Msg),
      acc ≠ [] → B < cur →
      contextLoop active B hasSys l cur acc = (acc, cur) := by
  intro l
  induction l with
  | nil => intro cur acc _ _; rfl
  | cons m rest ih =>
    intro cur acc hne h
    by_cases hr : roleOf m = active
    · rw [contextLoop, if_pos hr, if_pos]
      exact ⟨Nat.lt_of_lt_of_le h (Nat.le_add_right cur _), Or.inr hne⟩
    · rw [contextLoop, if_neg hr]
      exact ih cur acc hne h

/-- `current_tokens` tracks the summed estimate of the accepted turns. -/
theorem contextLoop_sum (active : String) (B : Nat) (hasSys : Bool) :
    ∀ (l : List Msg) (cur : Nat) (acc : List Msg) (base : Nat),
      cur = base + contextEstimate acc →
      (contextLoop active B hasSys l cur acc).2
        = base + contextEstimate (contextLoop active B hasSys l cur acc).1 := by
  intro l
  induction l with
  | nil => intro cur acc base h; simpa [contextLoop] using h
  | cons m rest ih =>
    intro cur acc base h
    by_cases hr : roleOf m = active
    · rw [contextLoop, if_pos hr]
      by_cases hc :
          B < cur + estimate_tokens m.content ∧ (hasSys = true ∨ acc ≠ [])
      · rw [if_pos hc]; exact h
      · rw [if_neg hc]
        refine ih _ (m :: acc) base ?_
        rw [contextEstimate_cons, h]
        omega
    · rw [contextLoop, if_neg hr]
      exact ih cur acc base h

/-- Without a kept system prompt the loop either stays within the limit or
accepts exactly one (the newest matching, possibly oversized) turn. -/
theorem contextLoop_nosys (active : String) (B : Nat) :
    ∀ l : List Msg,
      (contextLoop active B false l 0 []).2 ≤ B
      ∨ (contextLoop active B false l 0 []).1.length = 1 := by
  intro l
  induction l with
  | nil => left; simp [contextLoop]
  | cons m rest ih =>
    by_cases hr : roleOf m = active
    · rw [contextLoop, if_pos hr, if_neg (by simp)]
      by_cases hb : 0 + estimate_tokens m.content ≤ B
      · left
        exact contextLoop_le active B false rest _ [m] (Or.inr (by simp)) hb
      · right
        rw [contextLoop_stuck active B false rest _ [m] (by simp)
          (Nat.lt_of_not_le hb)]
        rfl
    · rw [contextLoop, if_neg hr]
      exact ih

theorem keepSystem_le {sysOpt : Option Msg} {B : Nat} {s : Msg}
    (h : keepSystem sysOpt B = some s) : estimate_tokens s.content ≤ B := by
  rcases sysOpt with _ | s₀
  · simp [keepSystem] at h
  · by_cases hb : estimate_tokens s₀.content ≤ B
    · rw [keepSystem, if_pos hb] at h
      cases h; exact hb
    · rw [keepSystem, if_neg hb] at h
      cases h

/-- C8.  For every turn history, active role and budget `B`, the summed
token estimate of the returned context is at most `B`, or else the dialog
portion of the returned context is exactly one turn. -/
theorem budgeter_bound_or_single_turn
    (full : List Msg) (active : String) (B : Nat) :
    contextEstimate (build_context_within_limit full active B) ≤ B
    ∨ (build_context_parts full active B).2.length = 1 := by
  rcases hp : splitSystem full with ⟨sysOpt, dialog⟩
  simp only [build_context_within_limit, build_context_parts, hp]
  rcases hk : keepSystem sysOpt B with _ | s
  · -- no system prompt kept
    simp only [Option.isSome_none, Option.toList_none, List.nil_append, sysTokens]
    have hsum := contextLoop_sum active B false dialog.reverse 0 [] 0 (by
      simp [contextEstimate])
    rcases hcl : contextLoop active B false dialog.reverse 0 [] with ⟨acc, cur⟩
    rw [hcl] at hsum
    dsimp only at hsum
    simp only [contextFallback]
    by_cases hf : acc = [] ∧ dialog ≠ []
    · rw [if_pos hf]
      rcases hm : findNewestMatching active dialog.reverse with _ | m
      · left; simp [fallbackPick, contextEstimate]
      · by_cases hb : cur + estimate_tokens m.content ≤ B
        · rw [fallbackPick, if_pos hb]
          left
          have hcur : cur = 0 := by
            rw [hf.1] at hsum; simpa [contextEstimate] using hsum
          rw [contextEstimate_cons, contextEstimate_nil]
          omega
        · rw [fallbackPick, if_neg hb]; left; simp [contextEstimate]
    · rw [if_neg hf]
      have hns := contextLoop_nosys active B dialog.reverse
      rw [hcl] at hns
      dsimp only at hns
      rcases hns with h | h
      · left; omega
      · right; exact h
  · -- system prompt kept
    have hes : estimate_tokens s.content ≤ B := keepSystem_le hk
    simp only [Option.isSome_some, Option.toList_some, sysTokens]
    have hsum := contextLoop_sum active B true dialog.reverse
      (estimate_tokens s.content) [] (estimate_tokens s.content) (by
        simp [contextEstimate])
    have hle := contextLoop_le active B true dialog.reverse
      (estimate_tokens s.content) [] (Or.inl rfl) hes
    rcases hcl : contextLoop active B true dialog.reverse
        (estimate_tokens s.content) [] with ⟨acc, cur⟩
    rw [hcl] at hsum hle
    dsimp only at hsum hle
    simp only [contextFallback]
    by_cases hf : acc = [] ∧ dialog ≠ []
    · rw [if_pos hf]
      have hcur : cur = estimate_tokens s.content := by
        rw [hf.1] at hsum; simpa [contextEstimate] using hsum
      rcases hm : findNewestMatching active dialog.reverse with _ | m
      · left
        simpa [fallbackPick, contextEstimate] using hes
      · by_cases hb : cur + estimate_tokens m.content ≤ B
        · rw [fallbackPick, if_pos hb]
          left
          rw [List.singleton_append, contextEstimate_cons,
            contextEstimate_cons, contextEstimate_nil]
          omega
        · rw [fallbackPick, if_neg hb]
          left
          simpa [contextEstimate] using hes
    · rw [if_neg hf]
      left
      rw [List.cons_append, List.nil_append, contextEstimate_cons]
      omega

/-! ### C1 and C2: the persona filter and the oversized-newest-turn case -/

/-- C1.  On the spec scenario history
`[system(50), u1 user(40), a1 assistant(40), u2 user(40)]` with `B = 100`
and the default active persona, the source returns only `[system]`: the
filter compares the OpenAI `role` field (`"user"`, `"assistant"`) with the
persona key `"__global__"` and hence skips every dialog turn.  The
spec-modelled variant filtering on the `role_marker` key returns the
claimed `[system, u2]`. -/
theorem budgeter_scenario_returns_system_only :
    build_context_within_limit [sysMsg50, userMsg40a, asstMsg40, userMsg40b]
        DEFAULT_ROLE_KEY 100 = [sysMsg50]
    ∧ build_context_within_limit [sysMsg50, userMsg40a, asstMsg40, userMsg40b]
        DEFAULT_ROLE_KEY 100 ≠ [sysMsg50, userMsg40b]
    ∧ build_context_marker [sysMsg50, userMsg40a, asstMsg40, userMsg40b]
        DEFAULT_ROLE_KEY 100 = [sysMsg50, userMsg40b] := by
  refine ⟨by decide, by decide, by decide⟩

/-- C2.  Even when the dialog turn's role matches the active-role argument,
the newest dialog turn is dropped whenever a system turn was kept and the
newest turn alone exceeds the remaining budget: with
`[system(50), user(60)]`, `B = 100` and active role `"user"` the result is
`[system]` and the newest turn is not in the returned context. -/
theorem budgeter_drops_oversized_newest_turn :
    build_context_within_limit [sysMsg50, userMsg60] "user" 100 = [sysMsg50]
    ∧ userMsg60 ∉ build_context_within_limit [sysMsg50, userMsg60] "user" 100 := by
  refine ⟨by decide, by decide⟩

/-! ## Python string helpers

Character-list implementations of the Python `str` operations used by the
embedded code: `strip`, substring containment / first-occurrence split,
`endswith`, `replace("\r\n", "\n")`, whitespace handling (`\s`). -/

/-- Python whitespace as used by `str.strip()` and the regex class `\s`
(ASCII range). -/
def pyIsSpace (c : Char) : Bool :=
  c = ' ' || c = '\t' || c = '\n' || c = '\r' || c = '\x0b' || c = '\x0c'

/-- Python `str.strip()`. -/
def pyStrip (cs : List Char) : List Char :=
  ((cs.dropWhile pyIsSpace).reverse.dropWhile pyIsSpace).reverse

/-- Python `str.strip()` on `String`. -/
def pyStripStr (s : String) : String :=
  String.mk (pyStrip s.toList)

/-- Split at the first occurrence of `sep`: Python `s.split(sep, 1)` when
`sep` occurs (the pair is the text before and after the separator). -/
def splitFirst (sep : List Char) : List Char → Option (List Char × List Char)
  | [] => if sep.isEmpty then some ([], []) else none
  | c :: rest =>
    if sep.isPrefixOf (c :: rest) then some ([], (c :: rest).drop sep.length)
    else
      match splitFirst sep rest with
      | some pq => some (c :: pq.1, pq.2)
      | none => none

/-- Python `sep in s`. -/
def containsSub (sep cs : List Char) : Bool :=
  (splitFirst sep cs).isSome

/-- Python `delta.replace("\r\n", "\n")`. -/
def replaceCRLF : List Char → List Char
  | '\r' :: '\n' :: rest => '\n' :: replaceCRLF rest
  | c :: rest => c :: replaceCRLF rest
  | [] => []

/-! ## Stream splitter (`llm_api.py`, `get_ai_response`, lines 87-118)

The SSE transport is abstracted into the list of extracted `delta`
strings; the buffering, the `[send]`/newline split loop and the final
flush are translated literally.  The `while` loop is run on a fuel bound
of the buffer length: every iteration removes at least one character
(the separator), so the fuel is never exhausted before the loop
condition turns false. -/

def sendTok : List Char := "[send]".toList

/-- Line 91: `"[send]" in buffer or (buffer.endswith("\n") and "\n" in
buffer.strip())`. -/
def splitterShouldSplit (buf : List Char) : Bool :=
  containsSub sendTok buf
    || (['\n'].isSuffixOf buf && containsSub ['\n'] (pyStrip buf))

/-- Lines 91-100: repeatedly split the buffer, yielding the stripped
nonempty parts. -/
def splitterDrain : Nat → List Char → List String × List Char
  | 0, buf => ([], buf)
  | fuel + 1, buf =>
    if splitterShouldSplit buf then
      let pq :=
        if containsSub sendTok buf then (splitFirst sendTok buf).getD (buf, [])
        else (splitFirst ['\n'] buf).getD (buf, [])
      let part := pyStrip pq.1
      let r := splitterDrain fuel pq.2
      (if part.isEmpty then r.1 else String.mk part :: r.1, r.2)
    else ([], buf)

/-- Lines 86-100: append one delta (after `\r\n` normalisation; an empty
delta is skipped) and run the split loop. -/
def splitterFeed (st : List String × List Char) (delta : String) :
    List String × List Char :=
  if delta = "" then st
  else
    let buf := st.2 ++ replaceCRLF delta.toList
    let r := splitterDrain buf.length buf
    (st.1 ++ r.1, r.2)

/-- `get_ai_response`, restricted to its chunking behaviour: feed every
delta, then flush the stripped remainder (lines 114-118). -/
def get_ai_response_chunks (deltas : List String) : List String :=
  let st := deltas.foldl splitterFeed ([], [])
  let fin := pyStrip st.2
  st.1 ++ (if fin.isEmpty then [] else [String.mk fin])

/-- A chunk contains an unterminated long-block when an opening
`[longtext:` marker has no closing bracket after it. -/
def hasUnterminatedLongBlock (s : String) : Bool :=
  match splitFirst ("[longtext:".toList) s.toList with
  | some pq => !(containsSub [']'] pq.2)
  | none => false

/-- C4.  The splitter has no long-block protection: on the delta sequence
`["[longtext:line1\n", "line2]\n"]` it emits the chunk
`"[longtext:line1"`, a truncated (unterminated) long-block, splitting at
a newline that falls inside the still-open `[longtext:` block. -/
theorem splitter_truncates_long_block :
    get_ai_response_chunks ["[longtext:line1\n", "line2]\n"]
      = ["[longtext:line1", "line2]"]
    ∧ hasUnterminatedLongBlock "[longtext:line1" = true := by
  exact ⟨by decide, by decide⟩

/-! ## Tool-call detection (`llm.py`, `_check_for_tool_calls_sync`,
lines 208-238)

The two regexes `\[get_context:(\d+)\]` and
`\[search_context:([^:\]]+)(?::(\d+))?\]` are implemented as leftmost
scanners.  Both patterns are deterministic: the greedy digit run and the
greedy `[^:\]]+` run cannot be shortened to rescue a failed match, so no
backtracking arises. -/

def digitsVal (ds : List Char) : Nat :=
  ds.foldl (fun a c => a * 10 + (c.toNat - '0'.toNat)) 0

def getContextTok : List Char := "[get_context:".toList

/-- Match `\[get_context:(\d+)\]` at the head of the input. -/
def matchGetContextAt (cs : List Char) : Option Nat :=
  if getContextTok.isPrefixOf cs then
    let rest := cs.drop getContextTok.length
    let ds := rest.takeWhile Char.isDigit
    if ds.isEmpty then none
    else
      match rest.drop ds.length with
      | ']' :: _ => some (digitsVal ds)
      | _ => none
  else none

/-- `re.search` for the `get_context` pattern: leftmost match. -/
def findGetContext : List Char → Option Nat
  | [] => none
  | c :: rest =>
    match matchGetContextAt (c :: rest) with
    | some n => some n
    | none => findGetContext rest

def searchContextTok : List Char := "[search_context:".toList

/-- Match `\[search_context:([^:\]]+)(?::(\d+))?\]` at the head. -/
def matchSearchContextAt (cs : List Char) :
    Option (List Char × Option Nat) :=
  if searchContextTok.isPrefixOf cs then
    let rest := cs.drop searchContextTok.length
    let q := rest.takeWhile (fun c => !(c = ':') && !(c = ']'))
    if q.isEmpty then none
    else
      match rest.drop q.length with
      | ']' :: _ => some (q, none)
      | ':' :: rest2 =>
        let ds := rest2.takeWhile Char.isDigit
        if ds.isEmpty then none
        else
          match rest2.drop ds.length with
          | ']' :: _ => some (q, some (digitsVal ds))
          | _ => none
      | _ => none
  else none

/-- `re.search` for the `search_context` pattern: leftmost match. -/
def findSearchContext : List Char → Option (List Char × Option Nat)
  | [] => none
  | c :: rest =>
    match matchSearchContextAt (c :: rest) with
    | some r => some r
    | none => findSearchContext rest

inductive ToolInfo where
  | getContext (count : Nat)
  | searchContext (query : String) (days : Nat)
deriving DecidableEq, Repr

/-- `_check_for_tool_calls_sync`: `get_context` is checked first; for
`search_context` the query is stripped and the day range is
`max(7, min(730, days))` with a default of 7 when omitted. -/
def checkForToolCallsSync (text : String) : Option ToolInfo :=
  match findGetContext text.toList with
  | some n => some (ToolInfo.getContext n)
  | none =>
    match findSearchContext text.toList with
    | some qd =>
      some (ToolInfo.searchContext (String.mk (pyStrip qd.1))
        (max 7 (min 730 (qd.2.getD 7))))
    | none => none

/-- C10.  Every detected `search_context` tool call carries a day range
clamped into `[7, 730]`: the raw regex groups give the stripped query and
`max(7, min(730, days or 7))` days. -/
theorem search_context_days_clamped (text : String) (q : String) (d : Nat)
    (h : checkForToolCallsSync text = some (ToolInfo.searchContext q d)) :
    7 ≤ d ∧ d ≤ 730
    ∧ ∃ raw : List Char × Option Nat,
        findSearchContext text.toList = some raw
        ∧ q = String.mk (pyStrip raw.1)
        ∧ d = max 7 (min 730 (raw.2.getD 7)) := by
  unfold checkForToolCallsSync at h
  rcases hg : findGetContext text.toList with _ | n
  · rw [hg] at h
    rcases hs : findSearchContext text.toList with _ | qd
    · rw [hs] at h; cases h
    · rw [hs] at h
      simp only [Option.some.injEq, ToolInfo.searchContext.injEq] at h
      refine ⟨?_, ?_, qd, rfl, h.1.symm, h.2.symm⟩
      · rw [← h.2]; exact le_max_left _ _
      · rw [← h.2]
        exact max_le (by norm_num) (min_le_left _ _)
  · rw [hg] at h; cases h

/-- Witness for C10 at the concrete chunk
`"[search_context: cats :2]"`: the query is stripped to `"cats"` and the
given 2 days are raised to 7. -/
theorem search_context_days_clamped_witness :
    checkForToolCallsSync "[search_context: cats :2]"
      = some (ToolInfo.searchContext "cats" 7)
    ∧ (7 ≤ 7 ∧ 7 ≤ 730
      ∧ ∃ raw : List Char × Option Nat,
          findSearchContext ("[search_context: cats :2]").toList = some raw
          ∧ "cats" = String.mk (pyStrip raw.1)
          ∧ 7 = max 7 (min 730 (raw.2.getD 7))) :=
  ⟨by decide, search_context_days_clamped "[search_context: cats :2]" "cats" 7
    (by decide)⟩

/-! ## Tool-call orchestrator (`llm.py`,
`_process_conversation_with_tools`, lines 52-145)

The streaming provider is abstracted into the per-attempt segment lists
`provider k` (the chunks the stream splitter yields during attempt `k`),
and the tool execution into `exec k` (`some data` for the value returned
by `_execute_tool_call`, `none` when it raised; `_execute_tool_call`
itself catches exceptions and returns `None`, so both cases reach the
`if context_data:` test as falsy unless the data is a nonempty string).
Provider exceptions (the `except` path, which is the only place yielding
the apology string) do not occur in the scenarios considered.

One attempt walks the segments, accumulating `full_response`; the
accumulated text is tested for a tool marker at every segment.  On a
marker with nonempty tool data the attempt stops (`break`) having
executed the tool once; on a marker with empty/failed data the segment
is swallowed and the walk continues (executing again at the next
segment); without a marker the segment is yielded to the caller. -/

def maxRetries : Nat := 3

def apologyChunk : String := "抱歉，经过多次尝试后仍然无法处理您的请求。"

/-- Python truthiness of an optional string (`if context_data:`): truthy
exactly for a nonempty string. -/
def pyTruthyOpt : Option String → Bool
  | some s => s ≠ ""
  | none => false

/-- One pass of the `for segment in get_ai_response(...)` loop: returns
(yielded segments, `has_tool_call`, number of tool executions).  On a
detected marker, `if context_data:` succeeds exactly when the execution
returned truthy data (lines 85-103): then the attempt breaks having run
the tool once; otherwise (empty data, or an exception swallowed inside
`_execute_tool_call`) the segment is swallowed and the walk continues,
re-executing at each further segment. -/
def runAttempt (exec : Option String) :
    String → List String → List String × Bool × Nat
  | _, [] => ([], false, 0)
  | accum, s :: rest =>
    let acc2 := accum ++ s
    if (checkForToolCallsSync acc2).isSome then
      if pyTruthyOpt exec then ([], true, 1)
      else
        let r := runAttempt exec acc2 rest
        (r.1, r.2.1, r.2.2 + 1)
    else
      let r := runAttempt exec acc2 rest
      (s :: r.1, r.2.1, r.2.2)

/-- The `while retry_count < max_retries` loop; the fuel is
`max_retries - retry_count`, so fuel 0 is exactly loop exit by retry
exhaustion (which yields nothing).  Returns (yielded chunks, total tool
executions). -/
def orchestrateLoop (provider : Nat → List String)
    (exec : Nat → Option String) : Nat → Nat → List String × Nat
  | 0, _ => ([], 0)
  | fuel + 1, r =>
    let a := runAttempt (exec r) "" (provider r)
    if a.2.1 then
      let rest := orchestrateLoop provider exec fuel (r + 1)
      (a.1 ++ rest.1, a.2.2 + rest.2)
    else (a.1, a.2.2)

/-- `_process_conversation_with_tools` with the default
`max_retries = 3`. -/
def processConversationWithTools (provider : Nat → List String)
    (exec : Nat → Option String) : List String × Nat :=
  orchestrateLoop provider exec maxRetries 0

/-- A provider that emits a tool marker in its first chunk on every
attempt. -/
def alwaysToolProvider : Nat → List String := fun _ => ["[get_context:5]"]

/-- Tool executions that always succeed with nonempty data. -/
def alwaysData : Nat → Option String := fun _ => some "DATA"

/-- C3 counterexample.  With a provider that always emits a tool marker
and tool executions that always succeed, the orchestrator performs
exactly 3 tool executions and then terminates yielding nothing at all:
no apology chunk is ever produced (the claim demands exactly one). -/
theorem orchestrator_exhaustion_yields_no_apology :
    processConversationWithTools alwaysToolProvider alwaysData = ([], 3)
    ∧ apologyChunk ∉ (processConversationWithTools alwaysToolProvider alwaysData).1 := by
  exact ⟨by decide, by decide⟩

/-- Everything an attempt yields is one of the provider's segments. -/
theorem runAttempt_yield_mem (exec : Option String) :
    ∀ (segs : List String) (accum s : String),
      s ∈ (runAttempt exec accum segs).1 → s ∈ segs := by
  intro segs
  induction segs with
  | nil => intro accum s h; simp [runAttempt] at h
  | cons x rest ih =>
    intro accum s h
    rw [runAttempt] at h
    split at h
    · split at h
      · simp at h
      · exact List.mem_cons_of_mem x (ih _ s h)
    · rcases List.mem_cons.mp h with h | h
      · exact h ▸ List.mem_cons_self x rest
      · exact List.mem_cons_of_mem x (ih _ s h)

/-- When the tool data is truthy, a detected attempt executes the tool
exactly once. -/
theorem runAttempt_success_count (exec : Option String)
    (hd : pyTruthyOpt exec = true) :
    ∀ (segs : List String) (accum : String),
      (runAttempt exec accum segs).2.1 = true →
      (runAttempt exec accum segs).2.2 = 1 := by
  intro segs
  induction segs with
  | nil => intro accum h; simp [runAttempt] at h
  | cons x rest ih =>
    intro accum h
    by_cases hc : (checkForToolCallsSync (accum ++ x)).isSome = true
    · have hgoal : runAttempt exec accum (x :: rest) = ([], true, 1) := by
        rw [runAttempt, if_pos hc, if_pos hd]
      rw [hgoal]
    · have hgoal : runAttempt exec accum (x :: rest)
          = (x :: (runAttempt exec (accum ++ x) rest).1,
            (runAttempt exec (accum ++ x) rest).2.1,
            (runAttempt exec (accum ++ x) rest).2.2) := by
        rw [runAttempt, if_neg hc]
      rw [hgoal] at h ⊢
      exact ih (accum ++ x) h

theorem orchestrateLoop_spec (provider : Nat → List String)
    (exec : Nat → Option String) :
    ∀ (fuel r : Nat),
      (∀ k, r ≤ k → k < r + fuel → pyTruthyOpt (exec k) = true) →
      (∀ k, r ≤ k → k < r + fuel →
        (runAttempt (exec k) "" (provider k)).2.1 = true) →
      (orchestrateLoop provider exec fuel r).2 = fuel
      ∧ ∀ s ∈ (orchestrateLoop provider exec fuel r).1,
          ∃ k, r ≤ k ∧ k < r + fuel ∧ s ∈ provider k := by
  intro fuel
  induction fuel with
  | zero =>
    intro r _ _
    exact ⟨rfl, by intro s h; simp [orchestrateLoop] at h⟩
  | succ n ih =>
    intro r hexec hdet
    have hdr := hdet r (le_refl r) (by omega)
    have her := hexec r (le_refl r) (by omega)
    have hcount := runAttempt_success_count (exec r) her (provider r) "" hdr
    have hrest := ih (r + 1)
      (by intro k h1 h2; exact hexec k (by omega) (by omega))
      (by intro k h1 h2; exact hdet k (by omega) (by omega))
    rw [orchestrateLoop, if_pos hdr]
    constructor
    · show (runAttempt (exec r) "" (provider r)).2.2
          + (orchestrateLoop provider exec n (r + 1)).2 = n + 1
      rw [hcount, hrest.1]
      omega
    · intro s hs
      rcases List.mem_append.mp hs with hs | hs
      · exact ⟨r, le_refl r, by omega, runAttempt_yield_mem (exec r) _ _ s hs⟩
      · rcases hrest.2 s hs with ⟨k, hk1, hk2, hk3⟩
        exact ⟨k, by omega, by omega, hk3⟩

/-- C3 amended.  For a provider whose output contains a tool marker on
every attempt and tool executions that always succeed with nonempty
data, the orchestrator performs exactly `max_retries` (3) tool
executions and then terminates; it never yields an apology chunk (or any
chunk of its own): everything yielded is a provider segment forwarded
before a detection.  The apology string appears only on the
provider-exception path. -/
theorem orchestrator_bounded_retries (provider : Nat → List String)
    (exec : Nat → Option String)
    (hexec : ∀ k, k < maxRetries → pyTruthyOpt (exec k) = true)
    (hdet : ∀ k, k < maxRetries →
      (runAttempt (exec k) "" (provider k)).2.1 = true) :
    (processConversationWithTools provider exec).2 = maxRetries
    ∧ ∀ s ∈ (processConversationWithTools provider exec).1,
        ∃ k, k < maxRetries ∧ s ∈ provider k := by
  have h := orchestrateLoop_spec provider exec maxRetries 0
    (by intro k _ hk; exact hexec k (by omega))
    (by intro k _ hk; exact hdet k (by omega))
  refine ⟨h.1, ?_⟩
  intro s hs
  rcases h.2 s hs with ⟨k, _, hk2, hk3⟩
  exact ⟨k, by omega, hk3⟩

/-- Witness for C3 at the always-tool provider with always-successful
executions. -/
theorem orchestrator_bounded_retries_witness :
    (∀ k, k < maxRetries → pyTruthyOpt (alwaysData k) = true)
    ∧ (∀ k, k < maxRetries →
        (runAttempt (alwaysData k) "" (alwaysToolProvider k)).2.1 = true)
    ∧ ((processConversationWithTools alwaysToolProvider alwaysData).2 = maxRetries
      ∧ ∀ s ∈ (processConversationWithTools alwaysToolProvider alwaysData).1,
          ∃ k, k < maxRetries ∧ s ∈ alwaysToolProvider k) :=
  ⟨by decide, by decide,
    orchestrator_bounded_retries alwaysToolProvider alwaysData
      (by decide) (by decide)⟩

/-! ## Event store (`utils/event_manager.py`, `register_event` and
`remove_event`)

The JSON-file dict of active events becomes an ordered association list
of records (Python dicts preserve insertion order; assignment to an
existing key updates in place).  The fresh `uuid4` id and the timestamp
are explicit parameters. -/

structure EventRecord where
  id : String
  evtType : String
  participants : List String
  promptContent : String
  chatId : String
  chatType : String
  startTime : Nat
  status : String
deriving DecidableEq, Repr

def MAX_ACTIVE_EVENTS : Nat := 50

/-- Python dict assignment `events[event_id] = {...}`: update in place
when the key exists, else append. -/
def eventsInsert (events : List EventRecord) (e : EventRecord) :
    List EventRecord :=
  if events.any (fun x => x.id = e.id) then
    events.map (fun x => if x.id = e.id then e else x)
  else events ++ [e]

/-- `register_event` (lines 67-110): refuse at capacity, refuse when the
chat already has an active event, else store the new record.  Returns
the new event id on success. -/
def register_event (events : List EventRecord) (newId : String)
    (evtType : String) (participants : List String) (prompt : String)
    (chatId chatType : String) (now : Nat) :
    Option String × List EventRecord :=
  if MAX_ACTIVE_EVENTS ≤ events.length then (none, events)
  else if events.any (fun e => e.chatId = chatId && e.chatType = chatType) then
    (none, events)
  else
    (some newId,
      eventsInsert events
        ⟨newId, evtType, participants, prompt, chatId, chatType, now, "active"⟩)

/-- `remove_event` (lines 136-151): delete by id, reporting success. -/
def remove_event (events : List EventRecord) (eventId : String) :
    Bool × List EventRecord :=
  if events.any (fun e => e.id = eventId) then
    (true, events.filter (fun e => !(e.id = eventId)))
  else (false, events)

/-- At most one active event per `(chat_id, chat_kind)` key. -/
def atMostOnePerChat (events : List EventRecord) : Prop :=
  ∀ cid ct : String,
    events.countP (fun e => e.chatId = cid && e.chatType = ct) ≤ 1

theorem countP_eventsAppend (events : List EventRecord) (e : EventRecord)
    (p : EventRecord → Bool) :
    (events ++ [e]).countP p = events.countP p + if p e then 1 else 0 := by
  simp [List.countP_append, List.countP_cons]

/-- C9.  The event store keeps at most one active record per
`(chat_id, chat_kind)`: registration returns `None` and leaves the store
unchanged whenever the chat already has an active event, and both a
successful registration (with a fresh uuid) and a removal preserve the
invariant. -/
theorem event_store_one_per_chat (events : List EventRecord)
    (newId evtType prompt chatId chatType : String)
    (participants : List String) (now : Nat)
    (hfresh : ∀ e ∈ events, e.id ≠ newId)
    (hinv : atMostOnePerChat events) :
    ((∃ e ∈ events, e.chatId = chatId ∧ e.chatType = chatType) →
      register_event events newId evtType participants prompt chatId chatType
        now = (none, events))
    ∧ atMostOnePerChat (register_event events newId evtType participants
        prompt chatId chatType now).2
    ∧ ∀ eventId,
        atMostOnePerChat (remove_event events eventId).2 := by
  have hrem : ∀ eventId, atMostOnePerChat (remove_event events eventId).2 := by
    intro eventId cid ct
    rw [remove_event]
    split
    · refine le_trans ?_ (hinv cid ct)
      exact List.Sublist.countP_le _ (List.filter_sublist events)
    · exact hinv cid ct
  refine ⟨?_, ?_, hrem⟩
  · rintro ⟨e, he, h1, h2⟩
    rw [register_event]
    split
    · rfl
    · rw [if_pos]
      rw [List.any_eq_true]
      exact ⟨e, he, by simp [h1, h2]⟩
  · rw [register_event]
    split
    · exact hinv
    · split
      · exact hinv
      · rename_i hcap hnochat
        intro cid ct
        rw [eventsInsert, if_neg, countP_eventsAppend]
        · by_cases hkey : chatId = cid ∧ chatType = ct
          · have hz : events.countP (fun e => e.chatId = cid && e.chatType = ct)
                = 0 := by
              rw [List.countP_eq_zero]
              intro e he
              intro hcontra
              apply hnochat
              rw [List.any_eq_true]
              refine ⟨e, he, ?_⟩
              simp only [Bool.and_eq_true, decide_eq_true_eq] at hcontra ⊢
              exact ⟨hkey.1 ▸ hcontra.1, hkey.2 ▸ hcontra.2⟩
            rw [hz]
            split <;> omega
          · have hfalse : (decide (chatId = cid) && decide (chatType = ct))
                = false := by
              by_cases h1 : chatId = cid
              · by_cases h2 : chatType = ct
                · exact absurd ⟨h1, h2⟩ hkey
                · simp [h2]
              · simp [h1]
            dsimp only
            rw [hfalse]
            simpa using hinv cid ct
        · rw [List.any_eq_true]
          rintro ⟨e, he, hid⟩
          simp only [decide_eq_true_eq] at hid
          exact hfresh e he hid

/-- Concrete event record used by the C9 witness. -/
def ev0 : EventRecord :=
  ⟨"e0", "party", ["10001"], "prompt", "123", "private", 5, "active"⟩

/-- Witness for C9: a store holding one event for chat
`("123", "private")` refuses a second registration for the same chat and
keeps the invariant under registration and removal. -/
theorem event_store_one_per_chat_witness :
    (∀ e ∈ [ev0], e.id ≠ "fresh")
    ∧ atMostOnePerChat [ev0]
    ∧ (((∃ e ∈ [ev0], e.chatId = "123" ∧ e.chatType = "private") →
        register_event [ev0] "fresh" "quiz" [] "p" "123" "private" 9
          = (none, [ev0]))
      ∧ atMostOnePerChat (register_event [ev0] "fresh" "quiz" [] "p" "123"
          "private" 9).2
      ∧ ∀ eventId, atMostOnePerChat (remove_event [ev0] eventId).2) := by
  have h1 : ∀ e ∈ [ev0], e.id ≠ "fresh" := by decide
  have h2 : atMostOnePerChat [ev0] := by
    intro cid ct
    exact le_trans (List.countP_le_length _) (by simp)
  exact ⟨h1, h2,
    event_store_one_per_chat [ev0] "fresh" "quiz" "p" "123" "private" [] 9
      h1 h2⟩

/-! ## Output message segments (`adapters/napcat/message_types.py` dicts)

The segment dictionaries produced by the parsers, as a tagged union. -/

inductive Segment where
  | text (content : String)
  | atUser (qq : String)
  | pokeSeg (qq : String)
  | image (file url : String)
  | music (provider id : String)
  | reply (id : String)
deriving DecidableEq, Repr

/-! ## Bracket-tag scanner (`messaging/ai_parser.py` regexes)

Both `SILENT_TAG_PATTERN` and `VISIBLE_TAG_PATTERN` have the shape
`\[(n1|n2|...):.*?\]` with `re.DOTALL`: a literal `[`, one alternative
name followed by `:`, then the shortest run of arbitrary characters up
to the next `]`.  `finditer`/`sub` take leftmost non-overlapping
matches.  The scanner below splits a text into alternating text runs and
tag matches.  The recursion over the remaining text after a match is run
on the fuel of the input length; a match always consumes at least one
character, so the fuel is never exhausted. -/

/-- Lazy `.*?\]`: content up to the first `]`, plus the rest after. -/
def takeUntilClose : List Char → Option (List Char × List Char)
  | [] => none
  | ']' :: rest => some ([], rest)
  | c :: rest =>
    match takeUntilClose rest with
    | some pq => some (c :: pq.1, pq.2)
    | none => none

/-- Try the name alternatives in regex order at the text after `[`:
a candidate matches when it is a prefix followed by `:` and a later `]`
closes the tag. -/
def tryTagNames (rest : List Char) :
    List (List Char) → Option (List Char × List Char × List Char)
  | [] => none
  | n :: ns =>
    if n.isPrefixOf rest then
      match rest.drop n.length with
      | ':' :: afterColon =>
        match takeUntilClose afterColon with
        | some pq => some (n, pq.1, pq.2)
        | none => tryTagNames rest ns
      | _ => tryTagNames rest ns
    else tryTagNames rest ns

/-- Match one tag at the head of the input: `(name, content, rest)`. -/
def matchTagAt (names : List (List Char)) : List Char →
    Option (List Char × List Char × List Char)
  | '[' :: rest => tryTagNames rest names
  | _ => none

/-- A scanned piece: a run of non-tag text, or one tag match. -/
inductive Piece where
  | text (t : List Char)
  | tag (name content : List Char)
deriving DecidableEq, Repr

/-- Prepend a character to a piece list, merging with a leading text
piece. -/
def consText (c : Char) : List Piece → List Piece
  | Piece.text t :: ps => Piece.text (c :: t) :: ps
  | ps => Piece.text [c] :: ps

def scanTagsFuel (names : List (List Char)) : Nat → List Char → List Piece
  | 0, rest => if rest.isEmpty then [] else [Piece.text rest]
  | _ + 1, [] => []
  | fuel + 1, c :: rest =>
    match matchTagAt names (c :: rest) with
    | some ncr => Piece.tag ncr.1 ncr.2.1 :: scanTagsFuel names fuel ncr.2.2
    | none => consText c (scanTagsFuel names fuel rest)

/-- Leftmost non-overlapping matches of `\[(names):.*?\]` with the
interleaved text runs. -/
def scanTags (names : List (List Char)) (cs : List Char) : List Piece :=
  scanTagsFuel names cs.length cs

/-- The full source text of a tag match. -/
def tagRaw (name content : List Char) : List Char :=
  '[' :: (name ++ ':' :: (content ++ [']']))

/-- `PATTERN.sub("", text)`: the concatenation of the text runs. -/
def piecesText (ps : List Piece) : List Char :=
  ps.foldr (fun p acc =>
    match p with
    | Piece.text t => t ++ acc
    | Piece.tag _ _ => acc) []

/-! ## Persona registry (`core/role_manager.py`) and notebook
(`storage/notebook.py`)

The process-wide dictionaries become an explicit state value.  Role
prompts, switch flags and notebooks are association lists; the active
role map is keyed by `(chat_id, chat_type)`. -/

structure Note where
  id : Nat
  content : String
  createdAt : Nat
deriving DecidableEq, Repr

def alistGet {α : Type} [DecidableEq α] {β : Type}
    (l : List (α × β)) (k : α) : Option β :=
  (l.find? (fun p => p.1 = k)).map (fun p => p.2)

def alistSet {α : Type} [DecidableEq α] {β : Type}
    (l : List (α × β)) (k : α) (v : β) : List (α × β) :=
  if l.any (fun p => p.1 = k) then
    l.map (fun p => if p.1 = k then (k, v) else p)
  else l ++ [(k, v)]

def alistRemove {α : Type} [DecidableEq α] {β : Type}
    (l : List (α × β)) (k : α) : List (α × β) :=
  l.filter (fun p => !(p.1 = k))

structure BotState where
  roles : List (String × String)
  activeRoles : List ((String × String) × String)
  switchFlags : List ((String × String) × Bool)
  notes : List (String × List Note)
  events : List EventRecord
  uuidCounter : Nat
deriving DecidableEq, Repr

/-- `notebook.notes[role]` with the `defaultdict(list)` default. -/
def notesFor (st : BotState) (role : String) : List Note :=
  (alistGet st.notes role).getD []

/-- `AINotebook._get_next_id`. -/
def nextNoteId (l : List Note) : Nat :=
  match l with
  | [] => 1
  | _ => (l.map Note.id).foldl Nat.max 0 + 1

/-- `AINotebook.add_note`: append a note with the next per-role id. -/
def add_note (st : BotState) (content : String) (role : String) (now : Nat) :
    Nat × BotState :=
  let l := notesFor st role
  let nid := nextNoteId l
  (nid, { st with notes := alistSet st.notes role (l ++ [⟨nid, content, now⟩]) })

/-- `AINotebook.delete_note`: drop the note with the given id (Python
`int` argument, so the id may be negative and match nothing). -/
def delete_note (st : BotState) (noteId : Int) (role : String) :
    Bool × BotState :=
  let l := notesFor st role
  let l2 := l.filter (fun n => !((n.id : Int) = noteId))
  (l2.length < l.length,
    { st with notes := alistSet st.notes role l2 })

/-- `role_manager.get_active_role`. -/
def get_active_role (st : BotState) (chatId chatType : String) :
    Option String :=
  alistGet st.activeRoles (chatId, chatType)

/-- `role_manager.set_active_role` (core version): switching to `None`
clears the key; switching to a name requires it to be registered; the
switch flag is set when the active role actually changes. -/
def set_active_role (st : BotState) (chatId chatType : String)
    (roleName : Option String) : Bool × BotState :=
  let key := (chatId, chatType)
  let oldRole := alistGet st.activeRoles key
  let normalized : Option String :=
    match roleName with
    | some s => if s = "" then none else some (pyStripStr s)
    | none => none
  match normalized with
  | none =>
    if (alistGet st.activeRoles key).isSome then
      let st2 := { st with activeRoles := alistRemove st.activeRoles key }
      if oldRole.isSome then
        (true, { st2 with switchFlags := alistSet st2.switchFlags key true })
      else (true, st2)
    else (true, st)
  | some r =>
    if st.roles.any (fun p => p.1 = r) then
      if oldRole ≠ some r then
        (true,
          { st with
            activeRoles := alistSet st.activeRoles key r
            switchFlags := alistSet st.switchFlags key true })
      else (true, st)
    else (false, st)

/-! ## Silent-tag execution (`messaging/ai_parser.py`,
`_handle_silent_tags`, lines 70-121)

The persona used for notebook operations is resolved once before the
scan (line 75) with Python `or` truthiness; a `setrole` earlier in the
chunk changes the active role in the registry but not this resolved
persona.  Tag effects run in source order; any exception inside a tag
(in practice only `int()` on a malformed note-delete id) is caught and
makes that tag a no-op. -/

def silentTagNames : List (List Char) :=
  ["note".toList, "setrole".toList, "event".toList, "event_end".toList,
    "get_context".toList]

def pyLower (cs : List Char) : List Char :=
  cs.map Char.toLower

/-- Python `int(str)`: optional surrounding whitespace and sign, then at
least one digit; anything else raises (`none`). -/
def pyIntOpt (cs : List Char) : Option Int :=
  let s := pyStrip cs
  match s with
  | '-' :: ds =>
    if !ds.isEmpty && ds.all Char.isDigit then some (-(digitsVal ds : Int))
    else none
  | '+' :: ds =>
    if !ds.isEmpty && ds.all Char.isDigit then some (digitsVal ds : Int)
    else none
  | ds =>
    if !ds.isEmpty && ds.all Char.isDigit then some (digitsVal ds : Int)
    else none

/-- `content.rsplit(":", 1)[0]` when a colon is present. -/
def beforeLastColon (cs : List Char) : List Char :=
  match splitFirst [':'] cs.reverse with
  | some pq => pq.2.reverse
  | none => cs

/-- `content.split(":", 2)`. -/
def splitColon2 (cs : List Char) : List (List Char) :=
  match splitFirst [':'] cs with
  | none => [cs]
  | some pq =>
    match splitFirst [':'] pq.2 with
    | none => [pq.1, pq.2]
    | some pq2 => [pq.1, pq2.1, pq2.2]

/-- `s.split(",")`. -/
def splitAllComma (cs : List Char) : List (List Char) :=
  cs.foldr
    (fun c acc =>
      match acc with
      | g :: gs => if c = ',' then [] :: g :: gs else (c :: g) :: gs
      | [] => [[c]])
    [[]]

/-- Python `a or b` on an optional/empty string against a default. -/
def pyOrStr (a : Option String) (b : String) : String :=
  match a with
  | some s => if s = "" then b else s
  | none => b

/-- The effect of one silent tag (lines 82-113). -/
def applySilentTag (st : BotState) (roleForProcessing : String)
    (chatId chatType : String) (now : Nat) (name content : List Char) :
    BotState :=
  if name = "note".toList then
    if containsSub [':'] content && (":delete".toList.isSuffixOf content) then
      match pyIntOpt (beforeLastColon content) with
      | some nid => (delete_note st nid roleForProcessing).2
      | none => st
    else (add_note st (String.mk content) roleForProcessing now).2
  else if name = "setrole".toList then
    let newRole : Option String :=
      if pyLower content = "default".toList then none
      else some (String.mk content)
    (set_active_role st chatId chatType newRole).2
  else if name = "event".toList then
    match splitColon2 content with
    | [t, ps, pr] =>
      let participants :=
        (((splitAllComma ps).map pyStrip).filter
          (fun p => !p.isEmpty)).map String.mk
      { st with
        events := (register_event st.events
          ("uuid-" ++ toString st.uuidCounter) (String.mk t) participants
          (String.mk pr) chatId chatType now).2
        uuidCounter := st.uuidCounter + 1 }
    | _ => st
  else if name = "event_end".toList then
    { st with events := (remove_event st.events (String.mk content)).2 }
  else st

/-- `_handle_silent_tags`: resolve the persona once, apply every silent
tag in order, and return the text with the silent tags removed and
stripped. -/
def handleSilentTags (st : BotState) (text : List Char)
    (chatId chatType : String) (activeRoleName : Option String) (now : Nat) :
    List Char × BotState :=
  let roleForProcessing :=
    pyOrStr activeRoleName
      (pyOrStr (get_active_role st chatId chatType) DEFAULT_ROLE_KEY)
  let pieces := scanTags silentTagNames text
  let st2 := pieces.foldl
    (fun acc p =>
      match p with
      | Piece.text _ => acc
      | Piece.tag n c =>
        applySilentTag acc roleForProcessing chatId chatType now n c)
    st
  (pyStrip (piecesText pieces), st2)

/-! ## Visible-tag parsing (`messaging/ai_parser.py`,
`_parse_visible_tags`, lines 124-223)

The music lookups (`fetch_music_data`) are abstracted into an oracle
from query to outcome; `asyncio.gather(*tasks, return_exceptions=True)`
delivers `results[i]` for `tasks[i]` regardless of completion order, and
each result is written back into its own placeholder slot
`music_indices[i]`. -/

/-- Outcome of one `fetch_music_data` task: the function returns either
a music-card segment or an error-text segment; `raised` stands for a
task that raised, captured by `gather(..., return_exceptions=True)`. -/
inductive MusicResult where
  | song (id : String)
  | textResult (msg : String)
  | raised
deriving DecidableEq, Repr

/-- Lines 199-205: the segment written back into the placeholder. -/
def musicResultSegment : MusicResult → Segment
  | MusicResult.song id => Segment.music "163" id
  | MusicResult.textResult m => Segment.text m
  | MusicResult.raised => Segment.text "[Music search failed]"

/-- Match `\[reply(?:\s*:\s*(\d+))?\]` at the head: the optional id
group and the rest after the match. -/
def matchReplyAt (cs : List Char) : Option (Option (List Char) × List Char) :=
  if "[reply".toList.isPrefixOf cs then
    let rest := cs.drop 6
    match rest with
    | ']' :: after => some (none, after)
    | _ =>
      match rest.dropWhile pyIsSpace with
      | ':' :: r2 =>
        let r3 := r2.dropWhile pyIsSpace
        let ds := r3.takeWhile Char.isDigit
        if ds.isEmpty then none
        else
          match r3.drop ds.length with
          | ']' :: after => some (some ds, after)
          | _ => none
      | _ => none
  else none

/-- `re.search` for the reply directive: the first match's id group. -/
def findReply : List Char → Option (Option (List Char))
  | [] => none
  | c :: rest =>
    match matchReplyAt (c :: rest) with
    | some pr => some pr.1
    | none => findReply rest

def removeRepliesFuel : Nat → List Char → List Char
  | 0, cs => cs
  | _ + 1, [] => []
  | fuel + 1, c :: rest =>
    match matchReplyAt (c :: rest) with
    | some pr => removeRepliesFuel fuel pr.2
    | none => c :: removeRepliesFuel fuel rest

/-- Line 139: `re.sub(r"\[reply(?:\s*:\s*\d+)?\]", "", text)`. -/
def removeReplies (cs : List Char) : List Char :=
  removeRepliesFuel cs.length cs

/-- Line 138: the explicit id wins; otherwise the context message id. -/
def resolveReplyId (text : List Char) (messageId : Option String) :
    Option String :=
  match findReply text with
  | some (some ds) => some (String.mk ds)
  | _ => messageId

/-- `_clean_tag_content`: strip, then collapse each whitespace run to a
single space (`re.sub(r'\s+', ' ', ...)`). -/
def collapseWsGo : Bool → List Char → List Char
  | _, [] => []
  | prevSpace, c :: rest =>
    if pyIsSpace c then
      if prevSpace then collapseWsGo true rest
      else ' ' :: collapseWsGo true rest
    else c :: collapseWsGo false rest

def cleanTagContent (c : List Char) : List Char :=
  collapseWsGo false (pyStrip c)

/-- `re.search(r'\d+', content)`: the first digit run. -/
def firstDigitRun : List Char → Option (List Char)
  | [] => none
  | c :: rest =>
    if c.isDigit then some (c :: rest.takeWhile Char.isDigit)
    else firstDigitRun rest

def visibleTagNames : List (List Char) :=
  ["reply".toList, "@qq".toList, "CQ:at".toList, "music".toList,
    "poke".toList, "emoji".toList, "longtext".toList]

/-- State of the placeholder-building loop (lines 141-195).  `pending`
is the text span `text[last_idx:pos]` not yet flushed; `failed` records
a raised exception (a mention/poke tag without any digit). -/
structure VisState where
  placeholders : List (Option Segment)
  tasks : List String
  indices : List Nat
  pending : List Char
  failed : Bool
deriving DecidableEq, Repr

def initVisState : VisState := ⟨[], [], [], [], false⟩

/-- Append the pending text span as a segment (`text[last_idx:...]`). -/
def flushPending (st : VisState) : VisState :=
  if st.pending.isEmpty then st
  else
    { st with
      placeholders :=
        st.placeholders ++ [some (Segment.text (String.mk st.pending))]
      pending := [] }

/-- One iteration of the `finditer` loop.  A surviving reply-typed match
hits `continue` without updating `last_idx` (lines 159-160), so the
already-flushed span stays part of the pending region and the tag's raw
text joins it.  A `CQ:at` match re-splits to tag type `"CQ"` (line 155),
which no branch handles: the tag is swallowed. -/
def visStep (emojiCatalog : String → Option (String × String))
    (st : VisState) : Piece → VisState
  | Piece.text t =>
    if st.failed then st else { st with pending := st.pending ++ t }
  | Piece.tag n c =>
    if st.failed then st
    else if n = "reply".toList then
      if st.pending.isEmpty then { st with pending := st.pending ++ tagRaw n c }
      else
        { st with
          placeholders := st.placeholders
            ++ [some (Segment.text (String.mk st.pending))]
          pending := st.pending ++ tagRaw n c }
    else if n = "@qq".toList then
      match firstDigitRun c with
      | some ds =>
        { flushPending st with
          placeholders := (flushPending st).placeholders
            ++ [some (Segment.atUser (String.mk ds))] }
      | none => { flushPending st with failed := true }
    else if n = "poke".toList then
      match firstDigitRun c with
      | some ds =>
        { flushPending st with
          placeholders := (flushPending st).placeholders
            ++ [some (Segment.pokeSeg (String.mk ds))] }
      | none => { flushPending st with failed := true }
    else if n = "emoji".toList then
      match emojiCatalog (String.mk (cleanTagContent c)) with
      | some fu =>
        { flushPending st with
          placeholders := (flushPending st).placeholders
            ++ [some (Segment.image fu.1 fu.2)] }
      | none =>
        { flushPending st with
          placeholders := (flushPending st).placeholders
            ++ [some (Segment.text
              ("[emoji not found: " ++ String.mk (cleanTagContent c) ++ "]"))] }
    else if n = "music".toList then
      { flushPending st with
        placeholders := (flushPending st).placeholders ++ [none]
        indices := (flushPending st).indices
          ++ [(flushPending st).placeholders.length]
        tasks := (flushPending st).tasks ++ [String.mk (cleanTagContent c)] }
    else if n = "longtext".toList then
      { flushPending st with
        placeholders := (flushPending st).placeholders
          ++ [some (Segment.text (String.mk c))] }
    else flushPending st

/-- The scan phase of `_parse_visible_tags` on the reply-stripped text,
including the trailing-text flush (lines 194-195). -/
def visScan (emojiCatalog : String → Option (String × String))
    (text : List Char) : VisState :=
  flushPending
    ((scanTags visibleTagNames (removeReplies text)).foldl
      (visStep emojiCatalog) initVisState)

/-- The `(placeholder index, task result)` pairs delivered by
`asyncio.gather`: `results[i]` belongs to `music_indices[i]` whatever
the completion order. -/
def musicPairs (oracle : String → MusicResult) (stv : VisState) :
    List (Nat × MusicResult) :=
  stv.indices.zip (stv.tasks.map oracle)

/-- Lines 197-205: write each task result back into its own placeholder
slot. -/
def writeback (placeholders : List (Option Segment))
    (pairs : List (Nat × MusicResult)) : List (Option Segment) :=
  pairs.foldl
    (fun ps pr => ps.set pr.1 (some (musicResultSegment pr.2))) placeholders

/-- Line 210: drop `None` and falsy-text segments. -/
def segKeep : Segment → Bool
  | Segment.text s => !(s = "")
  | _ => true

def isAtSeg : Segment → Bool
  | Segment.atUser _ => true
  | _ => false

/-- Lines 212-218: a text segment right after a mention gains a leading
space unless it already starts with one. -/
def spaceFix (prevAt : Bool) : Segment → Segment
  | Segment.text t =>
    if prevAt && !(t.startsWith " ") then Segment.text (" " ++ t)
    else Segment.text t
  | s => s

def insertSpacesGo : Bool → List Segment → List Segment
  | _, [] => []
  | prevAt, s :: rest => spaceFix prevAt s :: insertSpacesGo (isAtSeg s) rest

/-- The processed segment list before reply insertion: placeholders with
the music results written back, filtered, with mention spacing fixed. -/
def visProcessed (oracle : String → MusicResult)
    (emojiCatalog : String → Option (String × String))
    (text : List Char) : List Segment :=
  insertSpacesGo false
    (((writeback (visScan emojiCatalog text).placeholders
        (musicPairs oracle (visScan emojiCatalog text))).filterMap id).filter
      segKeep)

/-- `_parse_visible_tags`: `none` models the uncaught exception raised
by a digitless mention/poke tag (lines 220-221 prepend the reply segment
whenever a directive was found and a target id resolved). -/
def parseVisibleTags (oracle : String → MusicResult)
    (emojiCatalog : String → Option (String × String))
    (text : List Char) (messageId : Option String) :
    Option (List Segment) :=
  if (visScan emojiCatalog text).failed then none
  else if (findReply text).isSome
      && pyTruthyOpt (resolveReplyId text messageId) then
    some (Segment.reply ((resolveReplyId text messageId).getD "")
      :: visProcessed oracle emojiCatalog text)
  else some (visProcessed oracle emojiCatalog text)

/-- `parse_ai_message_to_segments` (messaging): missing chat id returns
the raw text; otherwise the silent pass runs, an empty remainder parses
to `[]`, and the visible pass produces the segments. -/
def parse_ai_message_to_segments (st : BotState) (text : String)
    (messageId : Option String) (chatId : Option String) (chatType : String)
    (activeRoleName : Option String) (oracle : String → MusicResult)
    (emojiCatalog : String → Option (String × String)) (now : Nat) :
    Option (List Segment) × BotState :=
  match chatId with
  | none => (some (if text = "" then [] else [Segment.text text]), st)
  | some cid =>
    let r := handleSilentTags st text.toList cid chatType activeRoleName now
    if (pyStrip r.1).isEmpty then (some [], r.2)
    else (parseVisibleTags oracle emojiCatalog r.1 messageId, r.2)

/-! ### C5: the setrole-then-note scenario -/

/-- A registry with the persona `Nya` registered, no active persona, an
empty notebook and no events. -/
def st0 : BotState := ⟨[("Nya", "nya prompt")], [], [], [], [], 0⟩

/-- A music oracle whose lookups all raise. -/
def noMusic : String → MusicResult := fun _ => MusicResult.raised

/-- An empty emoji catalog. -/
def noEmoji : String → Option (String × String) := fun _ => none

/-- The parse of the C5 scenario chunk in a chat with no prior active
persona. -/
def c5Run : Option (List Segment) × BotState :=
  parse_ai_message_to_segments st0 "[setrole:Nya][note:likes cats]Hi" none
    (some "123") "private" none noMusic noEmoji 7

/-- C5.  Parsing `"[setrole:Nya][note:likes cats]Hi"` with no prior
active persona makes `Nya` the active persona and returns
`[text("Hi")]`, but the note is stored under the default key
`"__global__"`, not under `Nya`: `_handle_silent_tags` resolves the
notebook persona once before the scan, so an earlier `setrole` does not
change which persona a later note attaches to. -/
theorem setrole_note_scenario :
    c5Run.1 = some [Segment.text "Hi"]
    ∧ get_active_role c5Run.2 "123" "private" = some "Nya"
    ∧ notesFor c5Run.2 "Nya" = []
    ∧ (notesFor c5Run.2 DEFAULT_ROLE_KEY).map Note.content = ["likes cats"] := by
  exact ⟨by decide, by decide, by decide, by decide⟩

/-! ### C6: reply-only chunks and the reply-prepend rule -/

/-- C6 counterexample.  Parsing the bare chunk `"[reply]"` in a chat
context that carries a message id returns a reply-only segment list, not
the empty list. -/
theorem reply_only_yields_reply_segment :
    parse_ai_message_to_segments st0 "[reply]" (some "123") (some "55")
      "private" none noMusic noEmoji 7
      = (some [Segment.reply "123"], st0)
    ∧ (some [Segment.reply "123"] : Option (List Segment)) ≠ some [] := by
  exact ⟨by decide, by decide⟩

def isReplySeg : Segment → Bool
  | Segment.reply _ => true
  | _ => false

theorem isReplySeg_spaceFix (b : Bool) (s : Segment) :
    isReplySeg (spaceFix b s) = isReplySeg s := by
  cases s with
  | text t => rw [spaceFix]; split <;> rfl
  | atUser q => rfl
  | pokeSeg q => rfl
  | image f u => rfl
  | music p i => rfl
  | reply i => rfl

theorem insertSpacesGo_noreply :
    ∀ (l : List Segment) (b : Bool),
      (∀ s ∈ l, isReplySeg s = false) →
      ∀ s ∈ insertSpacesGo b l, isReplySeg s = false := by
  intro l
  induction l with
  | nil => intro b _ s h; simp [insertSpacesGo] at h
  | cons x rest ih =>
    intro b hl s hs
    rw [insertSpacesGo] at hs
    rcases List.mem_cons.mp hs with h | h
    · rw [h, isReplySeg_spaceFix]
      exact hl x (List.mem_cons_self x rest)
    · exact ih (isAtSeg x) (fun t ht => hl t (List.mem_cons_of_mem _ ht)) s h

/-- No reply segment sits among the placeholders. -/
def phNoReply (ps : List (Option Segment)) : Prop :=
  ∀ s : Segment, some s ∈ ps → isReplySeg s = false

theorem phNoReply_append (ps : List (Option Segment)) (x : Option Segment)
    (h : phNoReply ps) (hx : ∀ s, x = some s → isReplySeg s = false) :
    phNoReply (ps ++ [x]) := by
  intro s hs
  rcases List.mem_append.mp hs with hs | hs
  · exact h s hs
  · rw [List.mem_singleton] at hs
    exact hx s hs.symm

theorem phNoReply_append_some (ps : List (Option Segment)) (seg : Segment)
    (h : phNoReply ps) (hseg : isReplySeg seg = false) :
    phNoReply (ps ++ [some seg]) :=
  phNoReply_append ps (some seg) h (by
    intro s hs
    rw [Option.some_inj] at hs
    rw [← hs]
    exact hseg)

theorem phNoReply_append_none (ps : List (Option Segment))
    (h : phNoReply ps) : phNoReply (ps ++ [none]) :=
  phNoReply_append ps none h (by intro s hs; cases hs)

theorem flushPending_noreply (st : VisState)
    (h : phNoReply st.placeholders) :
    phNoReply (flushPending st).placeholders := by
  rw [flushPending]
  split
  · exact h
  · exact phNoReply_append_some _ _ h rfl

theorem visStep_noreply (cat : String → Option (String × String))
    (st : VisState) (p : Piece) (h : phNoReply st.placeholders) :
    phNoReply (visStep cat st p).placeholders := by
  have h2 := flushPending_noreply st h
  rcases p with t | ⟨n, c⟩ <;> rw [visStep]
  · split
    · exact h
    · exact h
  · split
    · exact h
    · split
      · split
        · exact h
        · exact phNoReply_append_some _ _ h rfl
      · split
        · split
          · exact phNoReply_append_some _ _ h2 rfl
          · exact h2
        · split
          · split
            · exact phNoReply_append_some _ _ h2 rfl
            · exact h2
          · split
            · split
              · exact phNoReply_append_some _ _ h2 rfl
              · exact phNoReply_append_some _ _ h2 rfl
            · split
              · exact phNoReply_append_none _ h2
              · split
                · exact phNoReply_append_some _ _ h2 rfl
                · exact h2

theorem visScan_noreply (cat : String → Option (String × String))
    (text : List Char) : phNoReply (visScan cat text).placeholders := by
  apply flushPending_noreply
  have hgen : ∀ (ps : List Piece) (st : VisState), phNoReply st.placeholders →
      phNoReply (ps.foldl (visStep cat) st).placeholders := by
    intro ps
    induction ps with
    | nil => intro st h; exact h
    | cons p rest ih =>
      intro st h
      exact ih _ (visStep_noreply cat st p h)
  exact hgen _ initVisState (by intro s hs; simp [initVisState] at hs)

theorem isReplySeg_musicResult (r : MusicResult) :
    isReplySeg (musicResultSegment r) = false := by
  cases r <;> rfl

theorem writeback_noreply (pairs : List (Nat × MusicResult)) :
    ∀ ps, phNoReply ps → phNoReply (writeback ps pairs) := by
  induction pairs with
  | nil => intro ps h; exact h
  | cons pr rest ih =>
    intro ps h
    show phNoReply (writeback (ps.set pr.1 (some (musicResultSegment pr.2))) rest)
    apply ih
    intro s hs
    rcases List.mem_or_eq_of_mem_set hs with hs | hs
    · exact h s hs
    · rw [Option.some_inj] at hs
      rw [hs]
      exact isReplySeg_musicResult pr.2

theorem visProcessed_noreply (oracle : String → MusicResult)
    (cat : String → Option (String × String)) (text : List Char) :
    ∀ s ∈ visProcessed oracle cat text, isReplySeg s = false := by
  apply insertSpacesGo_noreply
  intro s hs
  have hs2 := List.mem_of_mem_filter hs
  rcases List.mem_filterMap.mp hs2 with ⟨b, hb, hid⟩
  have hb2 : some s ∈ writeback (visScan cat text).placeholders
      (musicPairs oracle (visScan cat text)) := by
    have : b = some s := hid
    rw [← this]
    exact hb
  exact writeback_noreply _ _ (visScan_noreply cat text) s hb2

/-- C6 amended.  In the messaging parser a reply segment is prepended
exactly when a reply directive was found and a target id resolved
(explicit id, else the context message id), regardless of whether other
segments exist: a bare `"[reply]"` chunk parses to the reply-only list
when an id resolves and to `[]` only when none does; a bare
`"[reply:77]"` chunk always parses to the reply-only list; and in
general a successful parse starts with a reply segment when the
directive was found with a resolved id, and contains no reply segment
otherwise. -/
theorem reply_prepend_semantics (oracle : String → MusicResult)
    (cat : String → Option (String × String)) :
    (∀ mid : Option String,
      parseVisibleTags oracle cat "[reply]".toList mid
        = if pyTruthyOpt mid then some [Segment.reply (mid.getD "")]
          else some [])
    ∧ (∀ mid : Option String,
      parseVisibleTags oracle cat "[reply:77]".toList mid
        = some [Segment.reply "77"])
    ∧ ∀ (text : List Char) (mid : Option String) (res : List Segment),
        parseVisibleTags oracle cat text mid = some res →
        (((findReply text).isSome
            && pyTruthyOpt (resolveReplyId text mid)) = true →
          res = Segment.reply ((resolveReplyId text mid).getD "")
            :: visProcessed oracle cat text)
        ∧ (((findReply text).isSome
            && pyTruthyOpt (resolveReplyId text mid)) = false →
          ∀ r, Segment.reply r ∉ res) := by
  refine ⟨fun mid => rfl, fun mid => rfl, ?_⟩
  intro text mid res h
  rw [parseVisibleTags] at h
  split at h
  · cases h
  · split at h <;> rename_i hguard
    · rw [Option.some_inj] at h
      constructor
      · intro _; exact h.symm
      · intro hgf
        rw [hguard] at hgf
        cases hgf
    · constructor
      · intro hgt
        exact absurd hgt hguard
      · intro _ r hr
        rw [Option.some_inj] at h
        rw [← h] at hr
        have := visProcessed_noreply oracle cat text _ hr
        simp [isReplySeg] at this

/-- Witness for C6 at `"[reply]"` with context message id `"9"`. -/
theorem reply_prepend_semantics_witness :
    parseVisibleTags noMusic noEmoji "[reply]".toList (some "9")
      = some [Segment.reply "9"]
    ∧ [Segment.reply "9"]
      = Segment.reply ((resolveReplyId "[reply]".toList (some "9")).getD "")
        :: visProcessed noMusic noEmoji "[reply]".toList :=
  ⟨by decide,
    ((reply_prepend_semantics noMusic noEmoji).2.2 "[reply]".toList
      (some "9") [Segment.reply "9"] (by decide)).1 (by decide)⟩

/-! ### C7: music placeholders and completion-order independence

The inline variant below follows the specification wording ("each result
... is written back into its own placeholder position — segment order in
the final list always matches source order"): every music tag is
resolved immediately at its source position.  Proving the source model
equal to it establishes the position/order property; the separate
permutation statement establishes independence from the completion
order `asyncio.gather` hides. -/

/-- Modelled from the spec: `visStep` with each music lookup resolved
inline at its source position instead of through a placeholder. -/
def visStepInline (oracle : String → MusicResult)
    (emojiCatalog : String → Option (String × String))
    (st : VisState) : Piece → VisState
  | Piece.text t =>
    if st.failed then st else { st with pending := st.pending ++ t }
  | Piece.tag n c =>
    if st.failed then st
    else if n = "reply".toList then
      if st.pending.isEmpty then { st with pending := st.pending ++ tagRaw n c }
      else
        { st with
          placeholders := st.placeholders
            ++ [some (Segment.text (String.mk st.pending))]
          pending := st.pending ++ tagRaw n c }
    else if n = "@qq".toList then
      match firstDigitRun c with
      | some ds =>
        { flushPending st with
          placeholders := (flushPending st).placeholders
            ++ [some (Segment.atUser (String.mk ds))] }
      | none => { flushPending st with failed := true }
    else if n = "poke".toList then
      match firstDigitRun c with
      | some ds =>
        { flushPending st with
          placeholders := (flushPending st).placeholders
            ++ [some (Segment.pokeSeg (String.mk ds))] }
      | none => { flushPending st with failed := true }
    else if n = "emoji".toList then
      match emojiCatalog (String.mk (cleanTagContent c)) with
      | some fu =>
        { flushPending st with
          placeholders := (flushPending st).placeholders
            ++ [some (Segment.image fu.1 fu.2)] }
      | none =>
        { flushPending st with
          placeholders := (flushPending st).placeholders
            ++ [some (Segment.text
              ("[emoji not found: " ++ String.mk (cleanTagContent c) ++ "]"))] }
    else if n = "music".toList then
      { flushPending st with
        placeholders := (flushPending st).placeholders
          ++ [some (musicResultSegment
            (oracle (String.mk (cleanTagContent c))))] }
    else if n = "longtext".toList then
      { flushPending st with
        placeholders := (flushPending st).placeholders
          ++ [some (Segment.text (String.mk c))] }
    else flushPending st

/-- Modelled from the spec: the scan with inline music resolution. -/
def visScanInline (oracle : String → MusicResult)
    (emojiCatalog : String → Option (String × String))
    (text : List Char) : VisState :=
  flushPending
    ((scanTags visibleTagNames (removeReplies text)).foldl
      (visStepInline oracle emojiCatalog) initVisState)

/-- Modelled from the spec: the processed segments of the inline scan. -/
def visProcessedInline (oracle : String → MusicResult)
    (emojiCatalog : String → Option (String × String))
    (text : List Char) : List Segment :=
  insertSpacesGo false
    (((visScanInline oracle emojiCatalog text).placeholders.filterMap
      id).filter segKeep)

/-- Modelled from the spec: `_parse_visible_tags` with inline music
resolution. -/
def parseVisibleTagsInline (oracle : String → MusicResult)
    (emojiCatalog : String → Option (String × String))
    (text : List Char) (messageId : Option String) :
    Option (List Segment) :=
  if (visScanInline oracle emojiCatalog text).failed then none
  else if (findReply text).isSome
      && pyTruthyOpt (resolveReplyId text messageId) then
    some (Segment.reply ((resolveReplyId text messageId).getD "")
      :: visProcessedInline oracle emojiCatalog text)
  else some (visProcessedInline oracle emojiCatalog text)

theorem set_append_left {α : Type} (l₂ : List α) (v : α) :
    ∀ (l₁ : List α) (i : Nat), i < l₁.length →
      (l₁ ++ l₂).set i v = l₁.set i v ++ l₂ := by
  intro l₁
  induction l₁ with
  | nil => intro i h; simp at h
  | cons a t ih =>
    intro i h
    cases i with
    | zero => rfl
    | succ j =>
      show a :: (t ++ l₂).set j v = a :: t.set j v ++ l₂
      rw [ih j (by simpa using h)]
      rfl

theorem set_append_length {α : Type} (x v : α) :
    ∀ l : List α, (l ++ [x]).set l.length v = l ++ [v] := by
  intro l
  induction l with
  | nil => rfl
  | cons a t ih =>
    show a :: (t ++ [x]).set t.length v = a :: (t ++ [v])
    rw [ih]

theorem writeback_length (pairs : List (Nat × MusicResult)) :
    ∀ ps : List (Option Segment), (writeback ps pairs).length = ps.length := by
  induction pairs with
  | nil => intro ps; rfl
  | cons pr rest ih =>
    intro ps
    show (writeback (ps.set pr.1 _) rest).length = ps.length
    rw [ih, List.length_set]

theorem writeback_append (pairs : List (Nat × MusicResult)) :
    ∀ (ps : List (Option Segment)) (x : Option Segment),
      (∀ pr ∈ pairs, pr.1 < ps.length) →
      writeback (ps ++ [x]) pairs = writeback ps pairs ++ [x] := by
  induction pairs with
  | nil => intro ps x _; rfl
  | cons pr rest ih =>
    intro ps x hb
    show writeback ((ps ++ [x]).set pr.1 (some (musicResultSegment pr.2))) rest
      = writeback (ps.set pr.1 (some (musicResultSegment pr.2))) rest ++ [x]
    rw [set_append_left [x] _ ps pr.1 (hb pr (List.mem_cons_self pr rest))]
    exact ih _ x (by
      intro q hq
      rw [List.length_set]
      exact hb q (List.mem_cons_of_mem pr hq))

theorem writeback_concat (ps : List (Option Segment))
    (pairs : List (Nat × MusicResult)) (pr : Nat × MusicResult) :
    writeback ps (pairs ++ [pr])
      = (writeback ps pairs).set pr.1 (some (musicResultSegment pr.2)) := by
  show List.foldl _ ps (pairs ++ [pr]) = _
  rw [List.foldl_append]
  rfl

/-- Invariant of the placeholder scan: one index per task, every index
in bounds, indices strictly increasing (each new placeholder slot is
allocated at the end). -/
def visInv (st : VisState) : Prop :=
  st.indices.length = st.tasks.length
  ∧ (∀ i ∈ st.indices, i < st.placeholders.length)
  ∧ st.indices.Pairwise (fun a b => a < b)

/-- Correspondence between the placeholder scan and the inline scan: the
inline placeholders are the source placeholders with all pending music
results written back. -/
def inlineRel (oracle : String → MusicResult) (st stI : VisState) : Prop :=
  stI.placeholders = writeback st.placeholders (musicPairs oracle st)
  ∧ stI.pending = st.pending
  ∧ stI.failed = st.failed
  ∧ visInv st

theorem musicPairs_bound (oracle : String → MusicResult) (st : VisState)
    (hinv : visInv st) :
    ∀ pr ∈ musicPairs oracle st, pr.1 < st.placeholders.length := by
  rintro ⟨i, r⟩ hpr
  exact hinv.2.1 i (List.of_mem_zip hpr).1

/-- Appending the same settled segment on both sides preserves the
correspondence. -/
theorem inlineRel_append_seg (oracle : String → MusicResult)
    (st stI : VisState) (h : inlineRel oracle st stI) (seg : Segment) :
    inlineRel oracle
      { st with placeholders := st.placeholders ++ [some seg] }
      { stI with placeholders := stI.placeholders ++ [some seg] } := by
  obtain ⟨hph, hpend, hfail, hinv⟩ := h
  refine ⟨?_, hpend, hfail, hinv.1, ?_, hinv.2.2⟩
  · show stI.placeholders ++ [some seg]
      = writeback (st.placeholders ++ [some seg]) (musicPairs oracle st)
    rw [writeback_append _ _ _ (musicPairs_bound oracle st hinv), hph]
  · intro i hi
    show i < (st.placeholders ++ [some seg]).length
    rw [List.length_append]
    exact Nat.lt_of_lt_of_le (hinv.2.1 i hi) (by omega)

theorem inlineRel_flush (oracle : String → MusicResult)
    (st stI : VisState) (h : inlineRel oracle st stI) :
    inlineRel oracle (flushPending st) (flushPending stI) := by
  obtain ⟨hph, hpend, hfail, hinv⟩ := h
  rw [flushPending, flushPending, hpend]
  by_cases he : st.pending.isEmpty = true
  · rw [if_pos he, if_pos he]
    exact ⟨hph, hpend, hfail, hinv⟩
  · rw [if_neg he, if_neg he]
    refine ⟨?_, rfl, hfail, hinv.1, ?_, hinv.2.2⟩
    · show stI.placeholders ++ [some (Segment.text (String.mk st.pending))]
        = writeback (st.placeholders
          ++ [some (Segment.text (String.mk st.pending))])
          (musicPairs oracle st)
      rw [writeback_append _ _ _ (musicPairs_bound oracle st hinv), hph]
    · intro i hi
      show i < (st.placeholders
        ++ [some (Segment.text (String.mk st.pending))]).length
      rw [List.length_append]
      exact Nat.lt_of_lt_of_le (hinv.2.1 i hi) (by omega)

/-- Setting both sides to failed preserves the correspondence. -/
theorem inlineRel_fail (oracle : String → MusicResult)
    (st stI : VisState) (h : inlineRel oracle st stI) :
    inlineRel oracle { st with failed := true }
      { stI with failed := true } := by
  obtain ⟨hph, hpend, hfail, hinv⟩ := h
  exact ⟨hph, hpend, rfl, hinv⟩

/-- Allocating a placeholder and a task on the source side corresponds
to appending the resolved segment on the inline side. -/
theorem inlineRel_music (oracle : String → MusicResult)
    (st stI : VisState) (h : inlineRel oracle st stI) (q : String) :
    inlineRel oracle
      { st with
        placeholders := st.placeholders ++ [none]
        indices := st.indices ++ [st.placeholders.length]
        tasks := st.tasks ++ [q] }
      { stI with
        placeholders := stI.placeholders
          ++ [some (musicResultSegment (oracle q))] } := by
  obtain ⟨hph, hpend, hfail, hinv⟩ := h
  have hpairs : musicPairs oracle
      { st with
        placeholders := st.placeholders ++ [none]
        indices := st.indices ++ [st.placeholders.length]
        tasks := st.tasks ++ [q] }
      = musicPairs oracle st ++ [(st.placeholders.length, oracle q)] := by
    show (st.indices ++ [st.placeholders.length]).zip
        ((st.tasks ++ [q]).map oracle) = _
    rw [List.map_append, List.zip_append (by
      rw [List.length_map]; exact hinv.1)]
    rfl
  refine ⟨?_, hpend, hfail, ?_, ?_, ?_⟩
  · show stI.placeholders ++ [some (musicResultSegment (oracle q))]
      = writeback (st.placeholders ++ [none]) _
    rw [hpairs, writeback_concat,
      writeback_append _ _ _ (musicPairs_bound oracle st hinv)]
    show _ = ((writeback st.placeholders (musicPairs oracle st))
      ++ [none]).set st.placeholders.length
        (some (musicResultSegment (oracle q)))
    rw [← writeback_length (musicPairs oracle st) st.placeholders,
      set_append_length, hph]
  · show (st.indices ++ [st.placeholders.length]).length
      = (st.tasks ++ [q]).length
    rw [List.length_append, List.length_append, hinv.1]
    rfl
  · intro i hi
    show i < (st.placeholders ++ [none]).length
    rw [List.length_append]
    rcases List.mem_append.mp hi with hi | hi
    · exact Nat.lt_of_lt_of_le (hinv.2.1 i hi) (by omega)
    · rw [List.mem_singleton] at hi
      rw [hi]
      simp
  · show (st.indices ++ [st.placeholders.length]).Pairwise (fun a b => a < b)
    rw [List.pairwise_append]
    refine ⟨hinv.2.2, List.pairwise_singleton _ _, ?_⟩
    intro a ha b hb
    rw [List.mem_singleton] at hb
    rw [hb]
    exact hinv.2.1 a ha

/-- The scan steps preserve the correspondence. -/
theorem visStep_inlineRel (oracle : String → MusicResult)
    (cat : String → Option (String × String)) (st stI : VisState)
    (p : Piece) (h : inlineRel oracle st stI) :
    inlineRel oracle (visStep cat st p)
      (visStepInline oracle cat stI p) := by
  have hflush := inlineRel_flush oracle st stI h
  obtain ⟨hph, hpend, hfail, hinv⟩ := h
  rcases p with t | ⟨n, c⟩ <;> rw [visStep, visStepInline, hfail, hpend]
  · by_cases hf : st.failed = true
    · rw [if_pos hf, if_pos hf]
      exact ⟨hph, hpend, hfail, hinv⟩
    · rw [if_neg hf, if_neg hf]
      exact ⟨hph, rfl, rfl, hinv⟩
  · by_cases hf : st.failed = true
    · rw [if_pos hf, if_pos hf]
      exact ⟨hph, hpend, hfail, hinv⟩
    · rw [if_neg hf, if_neg hf]
      by_cases hr : n = "reply".toList
      · rw [if_pos hr, if_pos hr]
        by_cases he : st.pending.isEmpty = true
        · rw [if_pos he, if_pos he]
          exact ⟨hph, rfl, rfl, hinv⟩
        · rw [if_neg he, if_neg he]
          refine ⟨?_, rfl, rfl, hinv.1, ?_, hinv.2.2⟩
          · show stI.placeholders
              ++ [some (Segment.text (String.mk st.pending))]
              = writeback (st.placeholders
                ++ [some (Segment.text (String.mk st.pending))])
                (musicPairs oracle st)
            rw [writeback_append _ _ _ (musicPairs_bound oracle st hinv), hph]
          · intro i hi
            show i < (st.placeholders
              ++ [some (Segment.text (String.mk st.pending))]).length
            rw [List.length_append]
            exact Nat.lt_of_lt_of_le (hinv.2.1 i hi) (by omega)
      · rw [if_neg hr, if_neg hr]
        by_cases hq : n = "@qq".toList
        · rw [if_pos hq, if_pos hq]
          rcases hfd : firstDigitRun c with _ | ds
          · exact inlineRel_fail oracle _ _ hflush
          · exact inlineRel_append_seg oracle _ _ hflush _
        · rw [if_neg hq, if_neg hq]
          by_cases hpk : n = "poke".toList
          · rw [if_pos hpk, if_pos hpk]
            rcases hfd : firstDigitRun c with _ | ds
            · exact inlineRel_fail oracle _ _ hflush
            · exact inlineRel_append_seg oracle _ _ hflush _
          · rw [if_neg hpk, if_neg hpk]
            by_cases hem : n = "emoji".toList
            · rw [if_pos hem, if_pos hem]
              rcases hcat : cat (String.mk (cleanTagContent c)) with _ | fu
              · exact inlineRel_append_seg oracle _ _ hflush _
              · exact inlineRel_append_seg oracle _ _ hflush _
            · rw [if_neg hem, if_neg hem]
              by_cases hmu : n = "music".toList
              · rw [if_pos hmu, if_pos hmu]
                exact inlineRel_music oracle _ _ hflush _
              · rw [if_neg hmu, if_neg hmu]
                by_cases hlt : n = "longtext".toList
                · rw [if_pos hlt, if_pos hlt]
                  exact inlineRel_append_seg oracle _ _ hflush _
                · rw [if_neg hlt, if_neg hlt]
                  exact hflush

theorem visScan_inlineRel (oracle : String → MusicResult)
    (cat : String → Option (String × String)) (text : List Char) :
    inlineRel oracle (visScan cat text) (visScanInline oracle cat text) := by
  have hgen : ∀ (ps : List Piece) (st stI : VisState),
      inlineRel oracle st stI →
      inlineRel oracle (ps.foldl (visStep cat) st)
        (ps.foldl (visStepInline oracle cat) stI) := by
    intro ps
    induction ps with
    | nil => intro st stI h; exact h
    | cons p rest ih =>
      intro st stI h
      exact ih _ _ (visStep_inlineRel oracle cat st stI p h)
  refine inlineRel_flush oracle _ _
    (hgen _ initVisState initVisState ⟨rfl, rfl, rfl, rfl, ?_, List.Pairwise.nil⟩)
  intro i hi
  cases hi

theorem parse_eq_inline (oracle : String → MusicResult)
    (cat : String → Option (String × String)) (text : List Char)
    (mid : Option String) :
    parseVisibleTags oracle cat text mid
      = parseVisibleTagsInline oracle cat text mid := by
  have h := visScan_inlineRel oracle cat text
  have hproc : visProcessedInline oracle cat text
      = visProcessed oracle cat text := by
    rw [visProcessedInline, visProcessed, h.1]
  rw [parseVisibleTags, parseVisibleTagsInline, h.2.2.1, hproc]

theorem writeback_perm {pairs pairs2 : List (Nat × MusicResult)}
    (hperm : pairs.Perm pairs2) :
    (pairs.map Prod.fst).Nodup →
    ∀ ps, writeback ps pairs = writeback ps pairs2 := by
  induction hperm with
  | nil => intro _ ps; rfl
  | cons x hpl ih =>
    intro hnd ps
    show writeback (ps.set x.1 (some (musicResultSegment x.2))) _
      = writeback (ps.set x.1 (some (musicResultSegment x.2))) _
    refine ih ?_ _
    rw [List.map_cons] at hnd
    exact hnd.of_cons
  | swap x y l =>
    intro hnd ps
    show writeback ((ps.set y.1 (some (musicResultSegment y.2))).set x.1
        (some (musicResultSegment x.2))) l
      = writeback ((ps.set x.1 (some (musicResultSegment x.2))).set y.1
        (some (musicResultSegment y.2))) l
    rw [List.set_comm]
    rw [List.map_cons, List.map_cons] at hnd
    have h2 := List.nodup_cons.mp hnd
    exact fun hxy => h2.1 (by rw [hxy]; exact List.mem_cons_self _ _)
  | trans h1 h2 ih1 ih2 =>
    intro hnd ps
    rw [ih1 hnd ps, ih2 (((h1.map Prod.fst).nodup_iff).mp hnd) ps]

theorem musicPairs_fst (oracle : String → MusicResult) (st : VisState)
    (hlen : st.indices.length = st.tasks.length) :
    (musicPairs oracle st).map Prod.fst = st.indices := by
  apply List.map_fst_zip
  rw [List.length_map]
  exact le_of_eq hlen

/-- C7.  The placeholder/gather mechanism produces exactly the inline
left-to-right resolution: every song (or per-lookup failure-fallback)
segment sits at the position of its source `[music:...]` tag, in source
order, and a failed lookup replaces only its own placeholder; moreover
the write-back result is invariant under any permutation of the
`(placeholder index, result)` deliveries, i.e. independent of the order
in which the concurrent lookups complete. -/
theorem music_segments_source_order (oracle : String → MusicResult)
    (cat : String → Option (String × String)) (text : List Char)
    (mid : Option String) :
    parseVisibleTags oracle cat text mid
      = parseVisibleTagsInline oracle cat text mid
    ∧ ∀ pairs2, (musicPairs oracle (visScan cat text)).Perm pairs2 →
        writeback (visScan cat text).placeholders pairs2
          = writeback (visScan cat text).placeholders
            (musicPairs oracle (visScan cat text)) := by
  have hrel := visScan_inlineRel oracle cat text
  constructor
  · exact parse_eq_inline oracle cat text mid
  · intro pairs2 hperm
    have hinv := hrel.2.2.2
    have hnd : ((musicPairs oracle (visScan cat text)).map Prod.fst).Nodup := by
      rw [musicPairs_fst oracle _ hinv.1]
      exact hinv.2.2.imp (fun h => ne_of_lt h)
    exact (writeback_perm hperm hnd _).symm

/-- The C7 witness chunk `"[music:A] x [music:B]"`. -/
def mtext : List Char := "[music:A] x [music:B]".toList

/-- A lookup oracle where `A` resolves to a song and `B` fails. -/
def oracleAB : String → MusicResult :=
  fun q => if q = "A" then MusicResult.song "11" else MusicResult.raised

/-- Witness for C7: on `"[music:A] x [music:B]"` with `A` found and `B`
failing, the output keeps source order with the failure fallback in
place, and delivering the two results in reverse completion order gives
the same write-back. -/
theorem music_segments_source_order_witness :
    parseVisibleTags oracleAB noEmoji mtext none
      = some [Segment.music "163" "11", Segment.text " x ",
          Segment.text "[Music search failed]"]
    ∧ parseVisibleTags oracleAB noEmoji mtext none
      = parseVisibleTagsInline oracleAB noEmoji mtext none
    ∧ ((musicPairs oracleAB (visScan noEmoji mtext)).Perm
        ((musicPairs oracleAB (visScan noEmoji mtext)).reverse)
      ∧ writeback (visScan noEmoji mtext).placeholders
          ((musicPairs oracleAB (visScan noEmoji mtext)).reverse)
        = writeback (visScan noEmoji mtext).placeholders
            (musicPairs oracleAB (visScan noEmoji mtext))) :=
  ⟨by decide,
    (music_segments_source_order oracleAB noEmoji mtext none).1,
    by decide,
    (music_segments_source_order oracleAB noEmoji mtext none).2 _ (by decide)⟩

end ArcBot
